import Mathlib

/-!
Shallow embedding of the permit core (src/core/permit/generate.ts,
src/core/permit/store.ts, src/types/base.ts) for verification.

Conventions of the embedding:
* TS strings are Lean `String`, TS numbers used by the core (expiration,
  validatorId, chain ids) are `Nat` / `Int` as appropriate.
* The keccak digest used by `getHash` (`keccak256(id(...))` from ethers) is an
  external library primitive; it is a parameter `digest : String → String` of
  the embedding.  Likewise `getAddress` (EIP-55 checksumming) and the sealing
  decryption `SealingKey.unseal` are parameters.
* JS `Record` objects are association lists `List (String × _)`; a key bound
  to `undefined` is a key bound to `none`, a missing key is a missing list
  entry (the distinction matters for the store's soft delete).
* Fallible operations (JS `throw`) return `Option` / `Except`.
-/

/-- A JSON-ish primitive value appearing in permit payloads. -/
inductive PVal where
  | s (v : String)
  | n (v : Nat)
deriving DecidableEq, Repr

/-- Sealing keypair (core/sdk/sealing) — opaque pair of hex strings here. -/
structure SealingKey where
  privateKey : String
  publicKey : String
deriving DecidableEq, Repr

/-- The permit `type` field: "self" | "sharing" | "recipient". -/
inductive PermitType where
  | self
  | sharing
  | recipient
deriving DecidableEq, Repr

/-- String form of the `type` discriminant, as it appears in JSON. -/
def PermitType.str : PermitType → String
  | .self => "self"
  | .sharing => "sharing"
  | .recipient => "recipient"

/-- `ZeroAddress` from ethers. -/
def ZeroAddress : String := "0x0000000000000000000000000000000000000000"

/-- The `Permit` class fields (store.ts, class Permit). `_signedChainId` is
`Option` because it starts `undefined`. -/
structure Permit where
  name : String
  type : PermitType
  issuer : String
  expiration : Nat
  recipient : String
  validatorId : Nat
  validatorContract : String
  sealingPair : SealingKey
  issuerSignature : String
  recipientSignature : String
  _signedChainId : Option String
deriving DecidableEq, Repr

/-- `SerializedPermit`: the plain-data image of a permit used by
`serialize` / `deserialize` and by the store. -/
structure SerializedPermit where
  name : String
  type : PermitType
  issuer : String
  expiration : Nat
  recipient : String
  validatorId : Nat
  validatorContract : String
  issuerSignature : String
  recipientSignature : String
  _signedChainId : Option String
  sealingPair : SealingKey
deriving DecidableEq, Repr

/-! ## generate.ts -/

/-- `PermitSignatureAllFields`: the master (name, abi type) list, in order. -/
def PermitSignatureAllFields : List (String × String) :=
  [("issuer", "address"),
   ("expiration", "uint64"),
   ("recipient", "address"),
   ("validatorId", "uint256"),
   ("validatorContract", "address"),
   ("sealingKey", "bytes32"),
   ("issuerSignature", "bytes")]

/-- The three EIP-712 primary types of `SignatureTypes`. -/
inductive PrimaryType where
  | PermissionedIssuerSelf
  | PermissionedIssuerShared
  | PermissionedRecipient
deriving DecidableEq, Repr

/-- Record key used for the primary type in the `types` object. -/
def PrimaryType.str : PrimaryType → String
  | .PermissionedIssuerSelf => "PermissionedIssuerSelf"
  | .PermissionedIssuerShared => "PermissionedIssuerShared"
  | .PermissionedRecipient => "PermissionedRecipient"

/-- `SignatureTypes`: field-name subset per primary type. -/
def SignatureTypes : PrimaryType → List String
  | .PermissionedIssuerSelf =>
      ["issuer", "expiration", "recipient", "validatorId", "validatorContract",
       "sealingKey"]
  | .PermissionedIssuerShared =>
      ["issuer", "expiration", "recipient", "validatorId", "validatorContract"]
  | .PermissionedRecipient =>
      ["sealingKey", "issuerSignature"]

/-- Result of `getSignatureTypesAndMessage`. -/
structure TypesAndMessage where
  types : List (String × List (String × String))
  primaryType : String
  message : List (String × PVal)
deriving DecidableEq, Repr

/-- Association-list lookup mirroring JS object property access
(`obj[k]`, first matching key). -/
def getKey {α : Type} : List (String × α) → String → Option α
  | [], _ => none
  | (k', v) :: rest, k => if k' = k then some v else getKey rest k

/-- `getSignatureTypesAndMessage`: filters the master list down to `fields`
(keeping master order) and builds the message from the keys of `values` that
are listed in `fields` (in `fields` order; keys absent from `values` are
silently omitted). -/
def getSignatureTypesAndMessage (primaryType : PrimaryType)
    (fields : List String) (values : List (String × PVal)) : TypesAndMessage :=
  { types := [(primaryType.str,
      PermitSignatureAllFields.filter (fun ft => fields.contains ft.1))],
    primaryType := primaryType.str,
    message := fields.filterMap (fun f => (getKey values f).map (fun v => (f, v))) }

/-- Hex-digit test used by `parseInt` with an `0x` prefix. -/
def isHexDigitJS (c : Char) : Bool :=
  c.isDigit ∨ ('a' ≤ c ∧ c ≤ 'f') ∨ ('A' ≤ c ∧ c ≤ 'F')

/-- Value of a hex digit character (either case). -/
def hexDigitValJS (c : Char) : Nat :=
  if c.toNat ≥ 97 then c.toNat - 87
  else if c.toNat ≥ 65 then c.toNat - 55
  else c.toNat - 48

/-- The magnitude part of JS `parseInt`: `0x`/`0X` selects hex, otherwise
decimal; the longest digit run counts; no digits means `NaN` (`none`). -/
def parseIntAbs : List Char → Option Nat
  | '0' :: 'x' :: rest =>
      let ds := rest.takeWhile isHexDigitJS
      if ds.isEmpty then none
      else some (ds.foldl (fun a c => 16 * a + hexDigitValJS c) 0)
  | '0' :: 'X' :: rest =>
      let ds := rest.takeWhile isHexDigitJS
      if ds.isEmpty then none
      else some (ds.foldl (fun a c => 16 * a + hexDigitValJS c) 0)
  | rest =>
      let ds := rest.takeWhile Char.isDigit
      if ds.isEmpty then none
      else some (ds.foldl (fun a c => 10 * a + (c.toNat - 48)) 0)

/-- JS `parseInt(s)` (radix unspecified): skip whitespace, optional sign,
then the magnitude; `none` models `NaN`. -/
def parseIntJS (s : String) : Option Int :=
  match s.data.dropWhile Char.isWhitespace with
  | '-' :: rest => (parseIntAbs rest).map (fun n => -(n : Int))
  | '+' :: rest => (parseIntAbs rest).map (fun n => (n : Int))
  | rest => (parseIntAbs rest).map (fun n => (n : Int))

/-- EIP-712 domain produced by `getSignatureDomain`.  `chainId = none`
models JS `NaN` (what `parseInt` yields on non-numeric input). -/
structure EIP712Domain where
  name : String
  version : String
  chainId : Option Int
  verifyingContract : String
deriving DecidableEq, Repr

/-- `getSignatureDomain`: constant name/version, parsed chain id, zero
verifying contract.  Note: it is a total function — `parseInt` does not
throw on non-numeric input, it produces `NaN`. -/
def getSignatureDomain (chainId : String) : EIP712Domain :=
  { name := "Fhenix Permission 1.0.0",
    version := "1.0.0",
    chainId := parseIntJS chainId,
    verifyingContract := ZeroAddress }

/-! ## Permit methods (store.ts, class Permit) -/

/-- JSON string-character escaping as performed by `JSON.stringify` on the
characters that occur here: `"` and `\` get a backslash, everything else is
verbatim.  (Control-character escapes are irrelevant to the permit fields,
which are addresses, decimal numbers and the fixed type tags.) -/
def escChar (c : Char) : List Char :=
  if c = '"' ∨ c = '\\' then ['\\', c] else [c]

/-- Escape a whole string (as a char list). -/
def escapeChars : List Char → List Char
  | [] => []
  | c :: t => escChar c ++ escapeChars t

/-- Decimal printing of a `Nat`, as `JSON.stringify` prints an integral JS
number: big-endian digits, `0` for zero. -/
def natReprChars (n : Nat) : List Char :=
  if n = 0 then ['0']
  else ((Nat.digits 10 n).reverse.map (fun d => Char.ofNat (48 + d)))

/-- The tuple `getHash` serializes: (type, issuer, expiration, recipient,
validatorId, validatorContract). -/
abbrev HashTuple := PermitType × String × Nat × String × Nat × String

/-- Projection of a permit onto its hash tuple. -/
def permitTuple (p : Permit) : HashTuple :=
  (p.type, p.issuer, p.expiration, p.recipient, p.validatorId,
   p.validatorContract)

/-- The characters of
`JSON.stringify(\x7btype, issuer, expiration, recipient, validatorId, validatorContract\x7d)`
in object-literal key order, exactly as `getHash` builds it. -/
def tupleJsonChars (t : HashTuple) : List Char :=
  "\x7b\"type\":\"".data ++ escapeChars t.1.str.data ++ '"' ::
  (",\"issuer\":\"".data ++ escapeChars t.2.1.data ++ '"' ::
  (",\"expiration\":".data ++ natReprChars t.2.2.1 ++
  (",\"recipient\":\"".data ++ escapeChars t.2.2.2.1.data ++ '"' ::
  (",\"validatorId\":".data ++ natReprChars t.2.2.2.2.1 ++
  (",\"validatorContract\":\"".data ++ escapeChars t.2.2.2.2.2.data ++ '"' ::
  "\x7d".data)))))

/-- `Permit.getHash`: digest of the canonical JSON string of the hash tuple.
`digest` stands for ethers' `keccak256 ∘ id`. -/
def Permit.getHash (digest : String → String) (p : Permit) : String :=
  digest (String.mk (tupleJsonChars (permitTuple p)))

/-- `Permit.getPermission` on the `skipValidation = true` path (the one the
signing flow uses): drops `name`, `type` and the keypair, appends
`sealingKey = "0x" ++ publicKey`, keeping the object's key order. -/
def Permit.getPermission (p : Permit) : List (String × PVal) :=
  [("issuer", .s p.issuer),
   ("expiration", .n p.expiration),
   ("recipient", .s p.recipient),
   ("validatorId", .n p.validatorId),
   ("validatorContract", .s p.validatorContract),
   ("issuerSignature", .s p.issuerSignature),
   ("recipientSignature", .s p.recipientSignature),
   ("sealingKey", .s ("0x" ++ p.sealingPair.publicKey))]

/-- `Permit.export`: the `cleanedPermit` object (the source then
`JSON.stringify`s it; the claims are about which fields it holds).
Optional fields appear only under the source's conditions. -/
def Permit.export (p : Permit) : List (String × PVal) :=
  [("name", .s p.name),
   ("type", .s p.type.str),
   ("issuer", .s p.issuer),
   ("expiration", .n p.expiration)]
  ++ (if p.recipient ≠ ZeroAddress then [("recipient", PVal.s p.recipient)] else [])
  ++ (if p.validatorId ≠ 0 then [("validatorId", PVal.n p.validatorId)] else [])
  ++ (if p.validatorContract ≠ ZeroAddress then
        [("validatorContract", PVal.s p.validatorContract)] else [])
  ++ (if p.type = .sharing ∧ p.issuerSignature ≠ "0x" then
        [("issuerSignature", PVal.s p.issuerSignature)] else [])

/-- `Permit.serialize`. -/
def Permit.serialize (p : Permit) : SerializedPermit :=
  { name := p.name,
    type := p.type,
    issuer := p.issuer,
    expiration := p.expiration,
    recipient := p.recipient,
    validatorId := p.validatorId,
    validatorContract := p.validatorContract,
    issuerSignature := p.issuerSignature,
    recipientSignature := p.recipientSignature,
    _signedChainId := p._signedChainId,
    sealingPair := { publicKey := p.sealingPair.publicKey,
                     privateKey := p.sealingPair.privateKey } }

/-- `Permit.deserialize`. -/
def Permit.deserialize (sp : SerializedPermit) : Permit :=
  { name := sp.name,
    type := sp.type,
    issuer := sp.issuer,
    expiration := sp.expiration,
    recipient := sp.recipient,
    validatorId := sp.validatorId,
    validatorContract := sp.validatorContract,
    sealingPair := { privateKey := sp.sealingPair.privateKey,
                     publicKey := sp.sealingPair.publicKey },
    issuerSignature := sp.issuerSignature,
    recipientSignature := sp.recipientSignature,
    _signedChainId := sp._signedChainId }

/-- Result of `Permit.getSignatureParams`. -/
structure SignatureParams where
  domain : EIP712Domain
  types : List (String × List (String × String))
  primaryType : String
  message : List (String × PVal)
deriving DecidableEq, Repr

/-- `Permit.getSignatureParams`. -/
def Permit.getSignatureParams (p : Permit) (chainId : String)
    (primaryType : PrimaryType) : SignatureParams :=
  let tm := getSignatureTypesAndMessage primaryType (SignatureTypes primaryType)
    p.getPermission
  { domain := getSignatureDomain chainId,
    types := tm.types,
    primaryType := tm.primaryType,
    message := tm.message }

/-- The primary type `sign` selects from `permit.type`. -/
def Permit.signPrimaryType (p : Permit) : PrimaryType :=
  match p.type with
  | .self => .PermissionedIssuerSelf
  | .sharing => .PermissionedIssuerShared
  | .recipient => .PermissionedRecipient

/-- The external signer capability: `signTypedData(domain, types, message)`,
`none` modelling a rejected (or failed) signer call. -/
abbrev SignerFn :=
  EIP712Domain → List (String × List (String × String)) →
    List (String × PVal) → Option String

/-- `Permit.sign`.  The returned pair is (outcome, permit state after the
call); every mutation of the source happens after the signer's answer is
received, so all failure outcomes carry the unchanged permit. -/
def Permit.sign (p : Permit) (chainId : Option String)
    (signer : Option SignerFn) : Except String Unit × Permit :=
  match chainId with
  | none => (.error "Permit :: sign - chainId undefined, cannot sign a permit with an unknown chainId", p)
  | some cid =>
    match signer with
    | none => (.error "Permit :: sign - signer undefined, you must pass in a signer for the connected user to create a permit signature", p)
    | some signFn =>
      let params := p.getSignatureParams cid p.signPrimaryType
      match signFn params.domain params.types params.message with
      | none => (.error "signer rejected", p)
      | some signature =>
        (.ok (),
          { p with
            issuerSignature :=
              if p.type = .self ∨ p.type = .sharing then signature
              else p.issuerSignature,
            recipientSignature :=
              if p.type = .recipient then signature else p.recipientSignature,
            _signedChainId := some cid })

/-- `Permit.isSigned`. -/
def Permit.isSigned (p : Permit) : Bool :=
  match p.type with
  | .self => p.issuerSignature ≠ "0x"
  | .sharing => p.issuerSignature ≠ "0x"
  | .recipient => p.recipientSignature ≠ "0x"

/-- `Permit.isExpired`; `now` is `Math.floor(Date.now() / 1000)`. -/
def Permit.isExpired (p : Permit) (now : Nat) : Bool :=
  p.expiration < now

/-- Result of `Permit.isValid` — note the field is named `error` in the
source (`\x7bvalid, error\x7d`), not `reason`. -/
structure ValidityResult where
  valid : Bool
  error : Option String
deriving DecidableEq, Repr

/-- `Permit.isValid`. -/
def Permit.isValid (p : Permit) (now : Nat) : ValidityResult :=
  if p.isExpired now then { valid := false, error := some "expired" }
  else if !p.isSigned then { valid := false, error := some "not-signed" }
  else { valid := true, error := none }

/-! ## Permit store (store.ts, free functions over the zustand store) -/

/-- JS object property assignment `obj[k] = v`: replace the binding if the
key exists, append it otherwise. -/
def setKey {α : Type} : List (String × α) → String → α → List (String × α)
  | [], k, v => [(k, v)]
  | (k', v') :: rest, k, v =>
      if k' = k then (k, v) :: rest else (k', v') :: setKey rest k v

/-- The zustand `PermitsStore` state.  An inner hash slot bound to `none`
is the soft-delete marker (`undefined` in JS); a missing inner key is a
slot that never existed. -/
structure PermitsStore where
  permits : List (String × List (String × Option SerializedPermit))
  activePermitHash : List (String × Option String)
deriving DecidableEq, Repr

/-- The store's initial state. -/
def emptyPermitsStore : PermitsStore :=
  { permits := [], activePermitHash := [] }

/-- `getPermit(account, hash)`. -/
def getPermit (s : PermitsStore) (account hash : Option String) :
    Option Permit :=
  match account, hash with
  | some a, some h =>
    match getKey s.permits a with
    | none => none
    | some m =>
      match getKey m h with
      | none => none
      | some none => none
      | some (some sp) => some (Permit.deserialize sp)
  | _, _ => none

/-- `getActivePermitHash(account)`; collapses "key missing" and "key bound
to undefined" exactly as the JS property read does. -/
def getActivePermitHash (s : PermitsStore) (account : Option String) :
    Option String :=
  match account with
  | none => none
  | some a => (getKey s.activePermitHash a).getD none

/-- `getActivePermit(account)`. -/
def getActivePermit (s : PermitsStore) (account : Option String) :
    Option Permit :=
  match account with
  | none => none
  | some a => getPermit s (some a) (getActivePermitHash s (some a))

/-- `getPermits(account)`: all non-deleted permits of the account, keyed by
hash (entry order preserved, as `Object.entries` does). -/
def getPermits (s : PermitsStore) (account : Option String) :
    List (String × Permit) :=
  match account with
  | none => []
  | some a =>
    ((getKey s.permits a).getD []).filterMap
      (fun kv => kv.2.map (fun sp => (kv.1, Permit.deserialize sp)))

/-- `setPermit(account, permit)`: creates the account's slot map when
absent, then stores the serialized permit under its hash. -/
def setPermit (digest : String → String) (s : PermitsStore) (account : String)
    (permit : Permit) : PermitsStore :=
  let m := (getKey s.permits account).getD []
  { s with
    permits :=
      setKey s.permits account
        (setKey m (permit.getHash digest) (some permit.serialize)) }

/-- `removePermit(account, hash)`: overwrites the slot with the absent
marker.  It reads `state.permits[account]` and indexes into it without a
null guard, so on an account whose slot map was never created the JS code
throws (`none` here). -/
def removePermit (s : PermitsStore) (account hash : String) :
    Option PermitsStore :=
  match getKey s.permits account with
  | none => none
  | some m =>
    some { s with permits := setKey s.permits account (setKey m hash none) }

/-- `setActivePermitHash(account, hash)`. -/
def setActivePermitHash (s : PermitsStore) (account hash : String) :
    PermitsStore :=
  { s with activePermitHash := setKey s.activePermitHash account (some hash) }

/-- `removeActivePermitHash(account)`: binds the key to `undefined`. -/
def removeActivePermitHash (s : PermitsStore) (account : String) :
    PermitsStore :=
  { s with activePermitHash := setKey s.activePermitHash account none }

/-! ## Unsealing (store.ts `Permit.unseal`, codes from types/base.ts) -/

/-- `FheTypes` codes used by the sealed-item discriminant (types/base.ts):
Bool = 0, Uint8 = 4, Uint16 = 8, Uint32 = 9, Uint64 = 10, Uint128 = 11,
Uint160 = 12 (address), Uint256 = 13. -/
def FheUintUTypes : List Nat := [4, 8, 9, 10, 11, 13]

/-- All sealed-item codes (uints, bool and address), `FheAllUTypes`. -/
def FheAllUTypes : List Nat := [0, 4, 8, 9, 10, 11, 13, 12]

mutual

/-- A JS value fed to `Permit.unseal`: primitives, arrays, plain objects,
and sealed items.  Modelled from the spec: a sealed item (the shape
`getAsSealedItem` recognizes, which lives outside src/) is a leaf carrying
its `utype` discriminant and ciphertext `data`; arrays and objects are
spine-level lists.  Three mutually inductive types stand for value, array
elements, and object fields. -/
inductive UnsealInput where
  | num (n : Nat)
  | str (s : String)
  | bool (b : Bool)
  | sealedItem (utype : Nat) (data : String)
  | arr (items : UnsealList)
  | obj (fields : UnsealFields)

inductive UnsealList where
  | nil
  | cons (head : UnsealInput) (tail : UnsealList)

inductive UnsealFields where
  | nil
  | cons (key : String) (value : UnsealInput) (tail : UnsealFields)

end

/-- The last `k` characters, JS `slice(-k)` (whole string when shorter). -/
def takeLast (k : Nat) (l : List Char) : List Char :=
  l.drop (l.length - k)

/-- Lowercase hex digit characters. -/
def hexDigitCh (d : Nat) : Char :=
  Char.ofNat (if d < 10 then 48 + d else 87 + d)

/-- JS `bigint.toString(16)`: big-endian lowercase hex, `"0"` for zero. -/
def natHexChars (n : Nat) : List Char :=
  if n = 0 then ['0'] else (Nat.digits 16 n).reverse.map hexDigitCh

/-- Numeric value of a lowercase hex char. -/
def hexCharVal (c : Char) : Nat :=
  if c.toNat ≥ 97 then c.toNat - 87 else c.toNat - 48

/-- Numeric value of a big-endian hex char string. -/
def hexVal (cs : List Char) : Nat :=
  cs.foldl (fun a c => 16 * a + hexCharVal c) 0

/-- The string `Permit.unseal` hands to ethers' `getAddress` for a sealed
address: `"0x" + bn.toString(16).slice(-40)`. -/
def addressSliceOf (bn : Nat) : String :=
  String.mk ('0' :: 'x' :: takeLast 40 (natHexChars bn))

mutual

/-- `Permit.unseal` and its recursions over arrays and objects.
`u` is the decryption `SealingKey.unseal` (or the hardhat mock, both live
outside src/ and are abstracted as one function from ciphertext to integer);
`g` is the `getAddress` checksummer from ethers.  A sealed bool becomes
`Boolean(bn)`, a sealed address `getAddress` of the low-hex slice, a sealed
uint the raw integer; a sealed item with an unrecognized discriminant falls
through to the object recursion, which copies its two primitive fields;
arrays and objects are rebuilt recursively; primitives pass through. -/
def Permit.unseal (u : String → Nat) (g : String → String) :
    UnsealInput → UnsealInput
  | .num n => .num n
  | .str s => .str s
  | .bool b => .bool b
  | .sealedItem utype data =>
      if utype = 0 then .bool (u data ≠ 0)
      else if utype = 12 then .str (g (addressSliceOf (u data)))
      else if utype ∈ FheUintUTypes then .num (u data)
      else .obj (.cons "data" (.str data) (.cons "utype" (.num utype) .nil))
  | .arr items => .arr (unsealList u g items)
  | .obj fields => .obj (unsealFields u g fields)

def unsealList (u : String → Nat) (g : String → String) :
    UnsealList → UnsealList
  | .nil => .nil
  | .cons x xs => .cons (Permit.unseal u g x) (unsealList u g xs)

def unsealFields (u : String → Nat) (g : String → String) :
    UnsealFields → UnsealFields
  | .nil => .nil
  | .cons k v fs => .cons k (Permit.unseal u g v) (unsealFields u g fs)

end

mutual

/-- Whether every sealed item in the value carries one of the recognized
discriminants (`FheAllUTypes`). -/
def wellTagged : UnsealInput → Bool
  | .num _ => true
  | .str _ => true
  | .bool _ => true
  | .sealedItem utype _ => utype ∈ FheAllUTypes
  | .arr items => wellTaggedList items
  | .obj fields => wellTaggedFields fields

def wellTaggedList : UnsealList → Bool
  | .nil => true
  | .cons x xs => wellTagged x && wellTaggedList xs

def wellTaggedFields : UnsealFields → Bool
  | .nil => true
  | .cons _ v fs => wellTagged v && wellTaggedFields fs

end

mutual

/-- Shape erasure: every leaf becomes `num 0`, arrays and objects keep
their spines and keys.  Two values have identical shape iff their erasures
are equal. -/
def eraseLeaves : UnsealInput → UnsealInput
  | .num _ => .num 0
  | .str _ => .num 0
  | .bool _ => .num 0
  | .sealedItem _ _ => .num 0
  | .arr items => .arr (eraseLeavesList items)
  | .obj fields => .obj (eraseLeavesFields fields)

def eraseLeavesList : UnsealList → UnsealList
  | .nil => .nil
  | .cons x xs => .cons (eraseLeaves x) (eraseLeavesList xs)

def eraseLeavesFields : UnsealFields → UnsealFields
  | .nil => .nil
  | .cons k v fs => .cons k (eraseLeaves v) (eraseLeavesFields fs)

end

/-! ## Claim C1 — validity check -/

/-- A concrete signed Self permit expiring at unix time 100. -/
def permitAtBoundary : Permit :=
  { name := "boundary",
    type := .self,
    issuer := "0x1111111111111111111111111111111111111111",
    expiration := 100,
    recipient := ZeroAddress,
    validatorId := 0,
    validatorContract := ZeroAddress,
    sealingPair := { privateKey := "aa", publicKey := "bb" },
    issuerSignature := "0xsigned",
    recipientSignature := "0x",
    _signedChainId := none }

/-- C1 counterexample: the claim says a permit whose `expiration` is *at*
the current time is reported expired, but `isExpired` uses a strict `<`:
at `now = expiration = 100` this signed permit is reported fully valid
(and the reason field is named `error`, not `reason`). -/
theorem isValid_at_expiration_counterexample :
    permitAtBoundary.expiration = 100 ∧
    permitAtBoundary.isValid 100 = { valid := true, error := none } := by
  constructor
  · rfl
  · rfl

/-- C1 (amended): `isValid` reports `\x7bvalid: false, error: "expired"\x7d`
exactly when `expiration` is strictly before the current time, regardless of
signature state; otherwise `\x7bvalid: false, error: "not-signed"\x7d` when
the kind-appropriate signature (issuer signature for self/sharing, recipient
signature for recipient) is still the sentinel `"0x"`; otherwise
`\x7bvalid: true\x7d`.  The expiration check comes first. -/
theorem isValid_spec (p : Permit) (now : Nat) :
    (p.expiration < now →
      p.isValid now = { valid := false, error := some "expired" }) ∧
    (¬ p.expiration < now → p.isSigned = false →
      p.isValid now = { valid := false, error := some "not-signed" }) ∧
    (¬ p.expiration < now → p.isSigned = true →
      p.isValid now = { valid := true, error := none }) ∧
    ((p.type = .self ∨ p.type = .sharing) →
      (p.isSigned = true ↔ p.issuerSignature ≠ "0x")) ∧
    (p.type = .recipient →
      (p.isSigned = true ↔ p.recipientSignature ≠ "0x")) := by
  refine ⟨?_, ?_, ?_, ?_, ?_⟩
  · intro h
    simp [Permit.isValid, Permit.isExpired, h]
  · intro h hs
    simp [Permit.isValid, Permit.isExpired, h, hs]
  · intro h hs
    simp [Permit.isValid, Permit.isExpired, h, hs]
  · rintro (h | h) <;> simp [Permit.isSigned, h]
  · intro h
    simp [Permit.isSigned, h]

/-- C1 witness: a signed, unexpired permit at `now = 50` evaluates to
valid via the amended theorem. -/
theorem isValid_spec_witness :
    permitAtBoundary.isValid 50 = { valid := true, error := none } :=
  (isValid_spec permitAtBoundary 50).2.2.1 (by decide) (by rfl)

/-! ## Claim C2 — signature payload per variant -/

/-- C2: for every permit and chain id, the message of the signing payload
contains exactly the variant's fields for its kind, in order (six fields for
self including `sealingKey`; the same five without `sealingKey` for sharing;
exactly `sealingKey, issuerSignature` for recipient), and the type
declaration lists those fields with their abi types in master-list order. -/
theorem signature_payload_per_kind (p : Permit) (cid : String) :
    ((p.getSignatureParams cid p.signPrimaryType).message =
      match p.type with
      | .self =>
        [("issuer", PVal.s p.issuer),
         ("expiration", PVal.n p.expiration),
         ("recipient", PVal.s p.recipient),
         ("validatorId", PVal.n p.validatorId),
         ("validatorContract", PVal.s p.validatorContract),
         ("sealingKey", PVal.s ("0x" ++ p.sealingPair.publicKey))]
      | .sharing =>
        [("issuer", PVal.s p.issuer),
         ("expiration", PVal.n p.expiration),
         ("recipient", PVal.s p.recipient),
         ("validatorId", PVal.n p.validatorId),
         ("validatorContract", PVal.s p.validatorContract)]
      | .recipient =>
        [("sealingKey", PVal.s ("0x" ++ p.sealingPair.publicKey)),
         ("issuerSignature", PVal.s p.issuerSignature)]) ∧
    ((p.getSignatureParams cid p.signPrimaryType).types =
      match p.type with
      | .self =>
        [("PermissionedIssuerSelf",
          [("issuer", "address"), ("expiration", "uint64"),
           ("recipient", "address"), ("validatorId", "uint256"),
           ("validatorContract", "address"), ("sealingKey", "bytes32")])]
      | .sharing =>
        [("PermissionedIssuerShared",
          [("issuer", "address"), ("expiration", "uint64"),
           ("recipient", "address"), ("validatorId", "uint256"),
           ("validatorContract", "address")])]
      | .recipient =>
        [("PermissionedRecipient",
          [("sealingKey", "bytes32"), ("issuerSignature", "bytes")])]) := by
  obtain ⟨name, ty, rest⟩ := p
  cases ty <;> exact ⟨rfl, rfl⟩

/-! ## Claim C4 — serialize/deserialize round trip -/

/-- C4: deserializing a serialized permit reproduces an equivalent permit:
identical hash under every digest, identical signatures, signed chain id,
and the sealing keypair (public and private halves) preserved exactly. -/
theorem deserialize_serialize (p : Permit) :
    Permit.deserialize p.serialize = p ∧
    (∀ digest, (Permit.deserialize p.serialize).getHash digest =
      p.getHash digest) ∧
    (Permit.deserialize p.serialize).issuerSignature = p.issuerSignature ∧
    (Permit.deserialize p.serialize).recipientSignature =
      p.recipientSignature ∧
    (Permit.deserialize p.serialize)._signedChainId = p._signedChainId ∧
    (Permit.deserialize p.serialize).sealingPair.publicKey =
      p.sealingPair.publicKey ∧
    (Permit.deserialize p.serialize).sealingPair.privateKey =
      p.sealingPair.privateKey := by
  have h : Permit.deserialize p.serialize = p := by
    obtain ⟨name, ty, iss, exp, rec, vid, vc, ⟨sk, pk⟩, isig, rsig, cidq⟩ := p
    rfl
  rw [h]
  exact ⟨rfl, fun _ => rfl, rfl, rfl, rfl, rfl, rfl⟩

/-! ## Claim C5 — sign: preconditions and no partial mutation -/

/-- C5: `sign` fails when the chain id or the signer is absent, and every
failing run (including a rejected signer call) leaves the permit exactly as
it was — in particular `issuerSignature`, `recipientSignature` and
`_signedChainId` are untouched, because the source performs all three
mutations only after the signature has been received. -/
theorem sign_fail_no_mutation (p : Permit) (chainId : Option String)
    (signer : Option SignerFn) :
    ((chainId = none ∨ signer = none) →
      (p.sign chainId signer).1 ≠ Except.ok ()) ∧
    ((p.sign chainId signer).1 ≠ Except.ok () →
      (p.sign chainId signer).2 = p) := by
  constructor
  · rintro (h | h) <;> subst h
    · simp [Permit.sign]
    · cases chainId <;> simp [Permit.sign]
  · intro h
    cases chainId with
    | none => rfl
    | some cid =>
      cases signer with
      | none => rfl
      | some signFn =>
        simp only [Permit.sign] at h ⊢
        cases hs : signFn ((p.getSignatureParams cid p.signPrimaryType).domain)
            ((p.getSignatureParams cid p.signPrimaryType).types)
            ((p.getSignatureParams cid p.signPrimaryType).message) with
        | none => simp [hs]
        | some sig => simp [hs] at h

/-- C5 witness: signing with no chain id and no signer fails and leaves the
concrete permit unchanged. -/
theorem sign_fail_no_mutation_witness :
    (permitAtBoundary.sign none none).1 ≠ Except.ok () ∧
    (permitAtBoundary.sign none none).2 = permitAtBoundary :=
  ⟨(sign_fail_no_mutation permitAtBoundary none none).1 (Or.inl rfl),
   (sign_fail_no_mutation permitAtBoundary none none).2
     ((sign_fail_no_mutation permitAtBoundary none none).1 (Or.inl rfl))⟩

/-! ## Claim C6 — export payload -/

/-- A concrete Self permit carrying a real issuer signature. -/
def signedSelfPermit : Permit :=
  { name := "mine",
    type := .self,
    issuer := "0x2222222222222222222222222222222222222222",
    expiration := 1000,
    recipient := ZeroAddress,
    validatorId := 0,
    validatorContract := ZeroAddress,
    sealingPair := { privateKey := "cc", publicKey := "dd" },
    issuerSignature := "0xdeadbeef",
    recipientSignature := "0x",
    _signedChainId := some "1" }

/-- C6 counterexample: the claim says `issuerSignature` is exported iff it
is not the `"0x"` sentinel, but the source additionally requires
`type === "sharing"`: this signed Self permit has a non-sentinel issuer
signature yet its export payload has no `issuerSignature` field. -/
theorem export_issuerSignature_counterexample :
    signedSelfPermit.issuerSignature ≠ "0x" ∧
    getKey signedSelfPermit.export "issuerSignature" = none := by
  constructor
  · decide
  · rfl

/-- C6 (amended): the export payload contains exactly `name`, `type`,
`issuer`, `expiration`, plus `recipient` iff it is not the zero address,
`validatorId` iff non-zero, `validatorContract` iff not the zero address,
and `issuerSignature` iff the permit kind is sharing *and* the signature is
not the `"0x"` sentinel. -/
theorem export_fields (p : Permit) :
    ("name", PVal.s p.name) ∈ p.export ∧
    ("type", PVal.s p.type.str) ∈ p.export ∧
    ("issuer", PVal.s p.issuer) ∈ p.export ∧
    ("expiration", PVal.n p.expiration) ∈ p.export ∧
    ((∃ v, ("recipient", v) ∈ p.export) ↔ p.recipient ≠ ZeroAddress) ∧
    ((∃ v, ("validatorId", v) ∈ p.export) ↔ p.validatorId ≠ 0) ∧
    ((∃ v, ("validatorContract", v) ∈ p.export) ↔
      p.validatorContract ≠ ZeroAddress) ∧
    ((∃ v, ("issuerSignature", v) ∈ p.export) ↔
      (p.type = .sharing ∧ p.issuerSignature ≠ "0x")) ∧
    (∀ kv ∈ p.export, kv.1 ∈
      ["name", "type", "issuer", "expiration", "recipient", "validatorId",
       "validatorContract", "issuerSignature"]) := by
  refine ⟨?_, ?_, ?_, ?_, ?_, ?_, ?_, ?_, ?_⟩
  · simp [Permit.export]
  · simp [Permit.export]
  · simp [Permit.export]
  · simp [Permit.export]
  · constructor
    · rintro ⟨v, hv⟩ hz
      simp [Permit.export, hz] at hv
    · intro hz
      exact ⟨PVal.s p.recipient, by simp [Permit.export, hz]⟩
  · constructor
    · rintro ⟨v, hv⟩ hz
      simp [Permit.export, hz] at hv
    · intro hz
      exact ⟨PVal.n p.validatorId, by simp [Permit.export, hz]⟩
  · constructor
    · rintro ⟨v, hv⟩ hz
      simp [Permit.export, hz] at hv
    · intro hz
      exact ⟨PVal.s p.validatorContract, by simp [Permit.export, hz]⟩
  · constructor
    · rintro ⟨v, hv⟩
      by_contra hz
      simp [Permit.export, hz] at hv
    · rintro ⟨ht, hz⟩
      exact ⟨PVal.s p.issuerSignature, by simp [Permit.export, ht, hz]⟩
  · intro kv hkv
    simp [Permit.export] at hkv
    rcases hkv with h | h | h | h | h | h | h | h <;>
      obtain ⟨hc, rfl⟩ := h <;> simp

/-- C6 witness: on the signed Self permit the amended characterization
reports no exported `issuerSignature` (its kind is not sharing). -/
theorem export_fields_witness :
    ¬ (∃ v, ("issuerSignature", v) ∈ signedSelfPermit.export) := by
  intro hv
  have h := (export_fields signedSelfPermit).2.2.2.2.2.2.2.1.mp hv
  exact absurd h.1 (by decide)

/-! ## Claim C7 — signing domain -/

/-- A character list with no decimal digits yields `NaN` from the
magnitude parser (a hex run needs the `0` of `0x` first). -/
theorem parseIntAbs_no_digit (cs : List Char)
    (h : ∀ c ∈ cs, c.isDigit = false) : parseIntAbs cs = none := by
  unfold parseIntAbs
  split
  · exact absurd (h '0' (by simp_all)) (by decide)
  · exact absurd (h '0' (by simp_all)) (by decide)
  · cases cs with
    | nil => rfl
    | cons c rest =>
      have hc : c.isDigit = false := h c (by simp)
      simp [List.takeWhile_cons, hc]

/-- C7 counterexample: on the non-numeric chain id `"abc"` the claim says
domain production fails, but `getSignatureDomain` returns a complete
domain — with a `NaN` chain id (modelled `none`) — rather than failing. -/
theorem getSignatureDomain_nonnumeric_counterexample :
    getSignatureDomain "abc" =
      { name := "Fhenix Permission 1.0.0",
        version := "1.0.0",
        chainId := none,
        verifyingContract := ZeroAddress } := by
  rfl

/-- C7 (amended): for every chain id string the produced domain has the
constant name and version strings and the zero verifying contract, and its
`chainId` field is JS `parseInt` of the supplied string; production never
fails — when the string contains no decimal digit, `parseInt` yields `NaN`
(`none`) instead. -/
theorem getSignatureDomain_spec (s : String) :
    ((getSignatureDomain s).name = "Fhenix Permission 1.0.0" ∧
     (getSignatureDomain s).version = "1.0.0" ∧
     (getSignatureDomain s).verifyingContract = ZeroAddress ∧
     (getSignatureDomain s).chainId = parseIntJS s) ∧
    ((∀ c ∈ s.data, c.isDigit = false) →
      (getSignatureDomain s).chainId = none) := by
  refine ⟨⟨rfl, rfl, rfl, rfl⟩, fun h => ?_⟩
  have hsub : ∀ c ∈ s.data.dropWhile Char.isWhitespace, c.isDigit = false :=
    fun c hc => h c ((s.data.dropWhile_sublist Char.isWhitespace).subset hc)
  show parseIntJS s = none
  unfold parseIntJS
  split
  · rename_i rest heq
    rw [parseIntAbs_no_digit rest (fun c hc => hsub c (by rw [heq]; simp [hc]))]
    rfl
  · rename_i rest heq
    rw [parseIntAbs_no_digit rest (fun c hc => hsub c (by rw [heq]; simp [hc]))]
    rfl
  · rename_i heq h1 h2
    rw [parseIntAbs_no_digit _ hsub]
    rfl

/-- C7 witness: the amended theorem applied at the digit-free string
`"abc"`. -/
theorem getSignatureDomain_spec_witness :
    (getSignatureDomain "abc").chainId = none :=
  (getSignatureDomain_spec "abc").2 (by decide)

/-! ## Association-list lemmas for the store -/

/-- Reading back the key just written. -/
theorem getKey_setKey_self {α : Type} (m : List (String × α)) (k : String)
    (v : α) : getKey (setKey m k v) k = some v := by
  induction m with
  | nil => simp [setKey, getKey]
  | cons kv rest ih =>
    obtain ⟨k', v'⟩ := kv
    by_cases h : k' = k <;> simp [setKey, getKey, h, ih]

/-- Writing one key leaves the others unchanged. -/
theorem getKey_setKey_ne {α : Type} (m : List (String × α)) (k k' : String)
    (v : α) (h : k' ≠ k) : getKey (setKey m k v) k' = getKey m k' := by
  induction m with
  | nil => simp [setKey, getKey, Ne.symm h]
  | cons kv rest ih =>
    obtain ⟨ka, va⟩ := kv
    by_cases hk : ka = k
    · subst hk
      simp [setKey, getKey, Ne.symm h]
    · simp only [setKey, if_neg hk, getKey]
      by_cases hk' : ka = k' <;> simp [hk', ih]

/-- The keys after a write are the old keys, possibly with the new one. -/
theorem mem_keys_setKey {α : Type} (m : List (String × α)) (k a : String)
    (v : α) (h : a ∈ (setKey m k v).map Prod.fst) :
    a ∈ m.map Prod.fst ∨ a = k := by
  induction m with
  | nil => simpa [setKey] using h
  | cons kv rest ih =>
    obtain ⟨ka, va⟩ := kv
    by_cases hk : ka = k
    · subst hk
      simp only [setKey, if_pos rfl] at h
      exact Or.inl h
    · simp only [setKey, if_neg hk, List.map_cons, List.mem_cons] at h ⊢
      rcases h with h | h
      · exact Or.inl (Or.inl h)
      · rcases ih h with h' | h'
        · exact Or.inl (Or.inr h')
        · exact Or.inr h'

/-- Writes preserve key uniqueness. -/
theorem nodup_keys_setKey {α : Type} (m : List (String × α)) (k : String)
    (v : α) (h : (m.map Prod.fst).Nodup) :
    ((setKey m k v).map Prod.fst).Nodup := by
  induction m with
  | nil => simp [setKey]
  | cons kv rest ih =>
    obtain ⟨ka, va⟩ := kv
    simp only [List.map_cons, List.nodup_cons] at h
    by_cases hk : ka = k
    · subst hk
      simpa [setKey] using h
    · simp only [setKey, if_neg hk, List.map_cons, List.nodup_cons]
      refine ⟨fun hmem => ?_, ih h.2⟩
      rcases mem_keys_setKey rest k ka v hmem with h' | h'
      · exact h.1 h'
      · exact hk h'

/-- With unique keys, every entry whose key is the one just written holds
the written value. -/
theorem eq_of_mem_setKey {α : Type} (m : List (String × α)) (k : String)
    (v : α) (kv : String × α) (hnd : (m.map Prod.fst).Nodup)
    (hmem : kv ∈ setKey m k v) (hk : kv.1 = k) : kv.2 = v := by
  induction m with
  | nil =>
    simp only [setKey, List.mem_singleton] at hmem
    rw [hmem]
  | cons hd rest ih =>
    obtain ⟨ka, va⟩ := hd
    simp only [List.map_cons, List.nodup_cons] at hnd
    by_cases hka : ka = k
    · subst hka
      have hred : setKey ((ka, va) :: rest) ka v = (ka, v) :: rest := by
        simp [setKey]
      rw [hred] at hmem
      cases hmem with
      | head => rfl
      | tail _ hmem2 =>
        have hmm : kv.1 ∈ rest.map Prod.fst :=
          List.mem_map_of_mem Prod.fst hmem2
        rw [hk] at hmm
        exact absurd hmm hnd.1
    · have hred : setKey ((ka, va) :: rest) k v = (ka, va) :: setKey rest k v := by
        simp [setKey, hka]
      rw [hred] at hmem
      cases hmem with
      | head => exact absurd hk hka
      | tail _ hmem2 => exact ih hnd.2 hmem2

/-- A successful lookup exhibits a list entry. -/
theorem mem_of_getKey {α : Type} (m : List (String × α)) (k : String)
    (v : α) (h : getKey m k = some v) : (k, v) ∈ m := by
  induction m with
  | nil => simp [getKey] at h
  | cons kv rest ih =>
    obtain ⟨ka, va⟩ := kv
    by_cases hk : ka = k
    · subst hk
      obtain rfl : va = v := by simpa [getKey] using h
      exact List.mem_cons_self _ _
    · simp only [getKey, if_neg hk] at h
      exact List.mem_cons_of_mem _ (ih h)

/-! ## Claim C10 — removePermit is not total, setPermit is -/

/-- C10: `removePermit` on an account whose slot map was never created
fails (the source indexes the missing map directly); `setPermit` creates
the map when absent, and after any `setPermit` on the account a
`removePermit` for any hash succeeds. -/
theorem removePermit_totality (digest : String → String) (s : PermitsStore)
    (A h : String) (X : Permit) :
    (getKey s.permits A = none → removePermit s A h = none) ∧
    (removePermit (setPermit digest s A X) A h).isSome = true := by
  constructor
  · intro habs
    unfold removePermit
    rw [habs]
  · unfold removePermit setPermit
    rw [getKey_setKey_self]
    rfl

/-- C10 witness: on the pristine store, removing before any put fails,
while removing right after a put succeeds. -/
theorem removePermit_totality_witness :
    removePermit emptyPermitsStore "0xuser" "0xh" = none ∧
    (removePermit
      (setPermit (fun s => s) emptyPermitsStore "0xuser" permitAtBoundary)
      "0xuser" "0xh").isSome = true :=
  ⟨(removePermit_totality (fun s => s) emptyPermitsStore "0xuser" "0xh"
      permitAtBoundary).1 rfl,
   (removePermit_totality (fun s => s) emptyPermitsStore "0xuser" "0xh"
      permitAtBoundary).2⟩

/-! ## Claim C8 — put then remove -/

/-- C8: after `setPermit(A, X)` followed by
`removePermit(A, hash(X))` (which succeeds, yielding `s2`), the permit is
gone: `getPermit` returns absent, `getPermits` no longer lists its hash,
and if the account's active pointer holds that hash, `getActivePermit`
returns absent rather than failing.  The key-uniqueness hypothesis states
the JS object invariant (object keys are unique). -/
theorem put_then_remove (digest : String → String) (s : PermitsStore)
    (A : String) (X : Permit)
    (hnodup : ∀ kv ∈ s.permits, (kv.2.map Prod.fst).Nodup)
    (s2 : PermitsStore)
    (h : removePermit (setPermit digest s A X) A (X.getHash digest) =
      some s2) :
    getPermit s2 (some A) (some (X.getHash digest)) = none ∧
    (∀ kv ∈ getPermits s2 (some A), kv.1 ≠ X.getHash digest) ∧
    (getActivePermitHash s2 (some A) = some (X.getHash digest) →
      getActivePermit s2 (some A) = none) := by
  set h0 := X.getHash digest with hh0
  set m : List (String × Option SerializedPermit) :=
    (getKey s.permits A).getD [] with hm
  have hmnd : (m.map Prod.fst).Nodup := by
    rw [hm]
    cases hga : getKey s.permits A with
    | none => simp
    | some m0 =>
      simpa using hnodup (A, m0) (mem_of_getKey s.permits A m0 hga)
  set m1 : List (String × Option SerializedPermit) :=
    setKey m h0 (some X.serialize) with hm1
  have hget1 : getKey (setPermit digest s A X).permits A = some m1 := by
    unfold setPermit
    exact getKey_setKey_self s.permits A m1
  have hs2 : s2 = { setPermit digest s A X with
      permits := setKey (setPermit digest s A X).permits A
        (setKey m1 h0 none) } := by
    unfold removePermit at h
    rw [hget1] at h
    exact (Option.some.injEq _ _).mp h.symm
  set m2 : List (String × Option SerializedPermit) :=
    setKey m1 h0 none with hm2
  have hget2 : getKey s2.permits A = some m2 := by
    rw [hs2]
    exact getKey_setKey_self _ A m2
  have hm2nd : (m2.map Prod.fst).Nodup :=
    nodup_keys_setKey _ _ _ (nodup_keys_setKey _ _ _ hmnd)
  have habsent : getPermit s2 (some A) (some h0) = none := by
    simp only [getPermit]
    rw [hget2]
    simp [hm2, getKey_setKey_self]
  refine ⟨habsent, ?_, ?_⟩
  · intro kv hkv
    intro hk1
    simp only [getPermits] at hkv
    rw [hget2] at hkv
    simp only [Option.getD_some, List.mem_filterMap] at hkv
    obtain ⟨⟨k, op⟩, hmem, hop⟩ := hkv
    cases op with
    | none => simp at hop
    | some sp =>
      simp at hop
      rw [← hop] at hk1
      have hkeq : k = h0 := hk1
      rw [hm2] at hmem
      have hv := eq_of_mem_setKey m1 h0 none (k, some sp)
        (nodup_keys_setKey _ _ _ hmnd) hmem hkeq
      simp at hv
  · intro hact
    simp only [getActivePermit]
    rw [hact]
    exact habsent

/-- Concrete store state after putting a permit for account "0xa" and
removing it by hash again (identity digest). -/
def removedStore : PermitsStore :=
  (removePermit
    (setPermit (fun s => s) emptyPermitsStore "0xa" permitAtBoundary)
    "0xa" (permitAtBoundary.getHash (fun s => s))).getD emptyPermitsStore

/-- C8 witness: the theorem applied to the pristine store, account "0xa"
and a concrete permit. -/
theorem put_then_remove_witness :
    getPermit removedStore (some "0xa")
      (some (permitAtBoundary.getHash (fun s => s))) = none :=
  (put_then_remove (fun s => s) emptyPermitsStore "0xa" permitAtBoundary
    (by simp [emptyPermitsStore]) removedStore (by rfl)).1

/-! ## Claim C9 — unseal -/

/-- Base-times-quotient decomposition of a modulus by a product. -/
theorem mod_mul_decomp (n b c : Nat) (hb : 0 < b) (hc : 0 < c) :
    n % (b * c) = b * (n / b % c) + n % b := by
  have e1 : b * (n / b) + n % b = n := Nat.div_add_mod n b
  have e2 : c * (n / b / c) + n / b % c = n / b := Nat.div_add_mod (n / b) c
  have hrw : n = b * c * (n / b / c) + (b * (n / b % c) + n % b) := by
    calc n = b * (n / b) + n % b := e1.symm
    _ = b * (c * (n / b / c) + n / b % c) + n % b := by rw [e2]
    _ = b * c * (n / b / c) + (b * (n / b % c) + n % b) := by ring
  have hlt : b * (n / b % c) + n % b < b * c := by
    have h1 : n / b % c + 1 ≤ c := Nat.mod_lt _ hc
    have h2 : n % b < b := Nat.mod_lt _ hb
    calc b * (n / b % c) + n % b < b * (n / b % c) + b := by omega
    _ = b * (n / b % c + 1) := by ring
    _ ≤ b * c := Nat.mul_le_mul_left b h1
  calc n % (b * c)
      = (b * c * (n / b / c) + (b * (n / b % c) + n % b)) % (b * c) := by
        rw [← hrw]
    _ = (b * (n / b % c) + n % b) % (b * c) := by
        rw [Nat.mul_add_mod]
    _ = b * (n / b % c) + n % b := Nat.mod_eq_of_lt hlt

/-- Truncating the little-endian digit list keeps the low-order part:
the first `k` digits of `n` in base `b` represent `n % b ^ k`. -/
theorem ofDigits_take_digits (b : Nat) (hb : 2 ≤ b) (k : Nat) :
    ∀ n : Nat, Nat.ofDigits b ((Nat.digits b n).take k) = n % b ^ k := by
  induction k with
  | zero => intro n; simp [Nat.mod_one]
  | succ k ih =>
    intro n
    rcases Nat.eq_zero_or_pos n with hn | hn
    · subst hn; simp
    · rw [Nat.digits_def' (by omega : 1 < b) hn, List.take_succ_cons,
        Nat.ofDigits_cons, ih (n / b)]
      have hdecomp := mod_mul_decomp n b (b ^ k) (by omega)
        (Nat.pos_pow_of_pos k (by omega))
      rw [pow_succ']
      omega

/-- Taking from the tail of a reversed list is reversing a front take. -/
theorem takeLast_reverse (k : Nat) (L : List Char) :
    takeLast k L.reverse = (L.take k).reverse := by
  show L.reverse.rtake k = (L.take k).reverse
  rw [List.rtake_eq_reverse_take_reverse, List.reverse_reverse]

/-- `hexCharVal` inverts `hexDigitCh` on digit values. -/
theorem hexCharVal_hexDigitCh (d : Nat) (h : d < 16) :
    hexCharVal (hexDigitCh d) = d := by
  interval_cases d <;> decide

/-- Valuating the big-endian hex string of a little-endian digit list. -/
theorem hexVal_reverse_map (ds : List Nat) (h : ∀ d ∈ ds, d < 16) :
    hexVal ((ds.map hexDigitCh).reverse) = Nat.ofDigits 16 ds := by
  induction ds with
  | nil => rfl
  | cons d t ih =>
    have hrev : ((d :: t).map hexDigitCh).reverse =
        (t.map hexDigitCh).reverse ++ [hexDigitCh d] := by
      simp
    rw [hrev]
    unfold hexVal
    rw [List.foldl_append]
    have ht := ih (fun x hx => h x (List.mem_cons_of_mem d hx))
    unfold hexVal at ht
    rw [ht, Nat.ofDigits_cons]
    simp [hexCharVal_hexDigitCh d (h d (List.mem_cons_self d t))]
    ring

/-- The 40-character tail slice of `n`'s hex string is worth the low 160
bits, `n % 2 ^ 160`. -/
theorem hexVal_takeLast_natHexChars (n : Nat) :
    hexVal (takeLast 40 (natHexChars n)) = n % 2 ^ 160 := by
  have hp : (16 : Nat) ^ 40 = 2 ^ 160 := by norm_num
  by_cases hn : n = 0
  · subst hn
    simp [natHexChars, takeLast, hexVal, hexCharVal]
  · unfold natHexChars
    rw [if_neg hn]
    have hmr : (Nat.digits 16 n).reverse.map hexDigitCh =
        ((Nat.digits 16 n).map hexDigitCh).reverse := by
      simp
    rw [hmr, takeLast_reverse, ← List.map_take, hexVal_reverse_map _
      (fun d hd => Nat.digits_lt_base (by norm_num)
        (List.take_subset 40 _ hd)),
      ofDigits_take_digits 16 (by norm_num) 40 n, hp]

mutual

/-- Unsealing a well-tagged value preserves its shape. -/
theorem eraseLeaves_unseal (u : String → Nat) (g : String → String) :
    ∀ item : UnsealInput, wellTagged item = true →
      eraseLeaves (Permit.unseal u g item) = eraseLeaves item
  | .num _, _ => rfl
  | .str _, _ => rfl
  | .bool _, _ => rfl
  | .sealedItem t d, h => by
      have ht : t ∈ FheAllUTypes := by
        simpa [wellTagged] using h
      simp only [FheAllUTypes, List.mem_cons, List.not_mem_nil, or_false] at ht
      rcases ht with rfl | rfl | rfl | rfl | rfl | rfl | rfl | rfl <;> rfl
  | .arr items, h => by
      have hl := eraseLeavesList_unseal u g items (by simpa [wellTagged] using h)
      simp only [Permit.unseal, eraseLeaves, hl]
  | .obj fields, h => by
      have hf := eraseLeavesFields_unseal u g fields
        (by simpa [wellTagged] using h)
      simp only [Permit.unseal, eraseLeaves, hf]

/-- Element-wise shape preservation over array spines. -/
theorem eraseLeavesList_unseal (u : String → Nat) (g : String → String) :
    ∀ l : UnsealList, wellTaggedList l = true →
      eraseLeavesList (unsealList u g l) = eraseLeavesList l
  | .nil, _ => rfl
  | .cons x xs, h => by
      have hx : wellTagged x = true :=
        (Bool.and_eq_true_iff.mp (by simpa [wellTaggedList] using h)).1
      have hxs : wellTaggedList xs = true :=
        (Bool.and_eq_true_iff.mp (by simpa [wellTaggedList] using h)).2
      simp only [unsealList, eraseLeavesList,
        eraseLeaves_unseal u g x hx, eraseLeavesList_unseal u g xs hxs]

/-- Field-wise shape preservation over object spines. -/
theorem eraseLeavesFields_unseal (u : String → Nat) (g : String → String) :
    ∀ f : UnsealFields, wellTaggedFields f = true →
      eraseLeavesFields (unsealFields u g f) = eraseLeavesFields f
  | .nil, _ => rfl
  | .cons k v fs, h => by
      have hv : wellTagged v = true :=
        (Bool.and_eq_true_iff.mp (by simpa [wellTaggedFields] using h)).1
      have hfs : wellTaggedFields fs = true :=
        (Bool.and_eq_true_iff.mp (by simpa [wellTaggedFields] using h)).2
      simp only [unsealFields, eraseLeavesFields,
        eraseLeaves_unseal u g v hv, eraseLeavesFields_unseal u g fs hfs]

end

/-- C9: `unseal` leaves plain integers, strings and booleans unchanged;
on a (well-tagged) nested structure it preserves the shape exactly and
converts every sealed leaf: a sealed bool becomes the native boolean of the
decrypted integer, a sealed address becomes the `getAddress`-checksummed
string of the hex slice worth the decrypted integer's low 160 bits, and a
sealed uint becomes the raw decrypted integer; arrays and objects are
rebuilt recursively, so non-sealed leaves inside are untouched. -/
theorem unseal_spec (u : String → Nat) (g : String → String) :
    (∀ n, Permit.unseal u g (.num n) = .num n) ∧
    (∀ s, Permit.unseal u g (.str s) = .str s) ∧
    (∀ b, Permit.unseal u g (.bool b) = .bool b) ∧
    (∀ d, Permit.unseal u g (.sealedItem 0 d) = .bool (u d ≠ 0)) ∧
    (∀ d, Permit.unseal u g (.sealedItem 12 d) =
        .str (g (addressSliceOf (u d))) ∧
      hexVal (takeLast 40 (natHexChars (u d))) = u d % 2 ^ 160) ∧
    (∀ t d, t ∈ FheUintUTypes →
      Permit.unseal u g (.sealedItem t d) = .num (u d)) ∧
    (∀ xs, Permit.unseal u g (.arr xs) = .arr (unsealList u g xs)) ∧
    (∀ kvs, Permit.unseal u g (.obj kvs) = .obj (unsealFields u g kvs)) ∧
    (∀ item, wellTagged item = true →
      eraseLeaves (Permit.unseal u g item) = eraseLeaves item) := by
  refine ⟨fun n => rfl, fun s => rfl, fun b => rfl, fun d => rfl,
    fun d => ⟨rfl, hexVal_takeLast_natHexChars (u d)⟩, ?_, fun xs => rfl,
    fun kvs => rfl, eraseLeaves_unseal u g⟩
  intro t d ht
  simp only [FheUintUTypes, List.mem_cons, List.not_mem_nil, or_false] at ht
  rcases ht with rfl | rfl | rfl | rfl | rfl | rfl <;> rfl

/-- A nested sample: an object holding a sealed bool and an array with a
sealed address next to a plain number. -/
def sampleNested : UnsealInput :=
  .obj (.cons "flag" (.sealedItem 0 "ct1")
    (.cons "items"
      (.arr (.cons (.sealedItem 12 "ct2") (.cons (.num 3) .nil)))
      .nil))

/-- C9 witness: the theorem applied at a concrete decryptor, checksummer,
sealed-uint leaf and nested structure. -/
theorem unseal_spec_witness :
    Permit.unseal (fun _ => 7) (fun s => s) (.sealedItem 4 "ct") =
      .num 7 ∧
    eraseLeaves (Permit.unseal (fun _ => 7) (fun s => s) sampleNested) =
      eraseLeaves sampleNested :=
  ⟨(unseal_spec (fun _ => 7) (fun s => s)).2.2.2.2.2.1 4 "ct" (by decide),
   (unseal_spec (fun _ => 7) (fun s => s)).2.2.2.2.2.2.2.2 sampleNested
     (by rfl)⟩

/-! ## Claim C3 — identity hash

The hash is `digest` of the canonical JSON string of the tuple.  To settle
both directions of the claim we prove the JSON encoding injective, by
exhibiting a decoder and a decode-of-encode round trip. -/

/-- Consume an expected literal prefix. -/
def expectChars : List Char → List Char → Option (List Char)
  | [], input => some input
  | _ :: _, [] => none
  | p :: ps, c :: cs => if c = p then expectChars ps cs else none

/-- Consume an escaped string body up to its unescaped closing quote.
The flag records whether the previous character was an unconsumed
backslash. -/
def unescape : Bool → List Char → Option (List Char × List Char)
  | _, [] => none
  | true, c :: rest => (unescape false rest).map (fun p => (c :: p.1, p.2))
  | false, c :: rest =>
    if c = '\\' then unescape true rest
    else if c = '"' then some ([], rest)
    else (unescape false rest).map (fun p => (c :: p.1, p.2))

/-- Consume a nonempty decimal digit run. -/
def parseNatPart (cs : List Char) : Option (Nat × List Char) :=
  let ds := cs.takeWhile Char.isDigit
  if ds.isEmpty then none
  else some (ds.foldl (fun a c => 10 * a + (c.toNat - 48)) 0,
    cs.dropWhile Char.isDigit)

/-- Literal prefix, then an escaped string. -/
def expectStr (lit cs : List Char) : Option (List Char × List Char) :=
  (expectChars lit cs).bind (unescape false)

/-- Literal prefix, then a decimal number. -/
def expectNat (lit cs : List Char) : Option (Nat × List Char) :=
  (expectChars lit cs).bind parseNatPart

/-- Recover the `type` tag. -/
def parsePermitType (s : String) : Option PermitType :=
  if s = "self" then some .self
  else if s = "sharing" then some .sharing
  else if s = "recipient" then some .recipient
  else none

/-- Decoder for the canonical hash JSON, mirroring `tupleJsonChars`
segment by segment. -/
def decodeTuple (cs : List Char) : Option HashTuple :=
  (expectStr "\x7b\"type\":\"".data cs).bind fun p1 =>
  (parsePermitType (String.mk p1.1)).bind fun ty =>
  (expectStr ",\"issuer\":\"".data p1.2).bind fun p2 =>
  (expectNat ",\"expiration\":".data p2.2).bind fun p3 =>
  (expectStr ",\"recipient\":\"".data p3.2).bind fun p4 =>
  (expectNat ",\"validatorId\":".data p4.2).bind fun p5 =>
  (expectStr ",\"validatorContract\":\"".data p5.2).bind fun p6 =>
  (expectChars "\x7d".data p6.2).bind fun r =>
  if r = [] then
    some (ty, String.mk p2.1, p3.1, String.mk p4.1, p5.1, String.mk p6.1)
  else none

/-- A literal prefix is consumed exactly. -/
theorem expectChars_append (l rest : List Char) :
    expectChars l (l ++ rest) = some rest := by
  induction l with
  | nil => rfl
  | cons c t ih => simp [expectChars, ih]

/-- Unescaping inverts escaping, leaving the suffix after the quote. -/
theorem unescape_escape (s rest : List Char) :
    unescape false (escapeChars s ++ '"' :: rest) = some (s, rest) := by
  induction s with
  | nil => rfl
  | cons c t ih =>
    by_cases hc : c = '"' ∨ c = '\\'
    · have h1 : escapeChars (c :: t) ++ '"' :: rest =
          '\\' :: c :: (escapeChars t ++ '"' :: rest) := by
        show (escChar c ++ escapeChars t) ++ '"' :: rest = _
        rw [escChar, if_pos hc]
        simp
      rw [h1]
      have h2 : unescape false ('\\' :: c :: (escapeChars t ++ '"' :: rest)) =
          (unescape false (escapeChars t ++ '"' :: rest)).map
            (fun p => (c :: p.1, p.2)) := rfl
      rw [h2, ih]
      rfl
    · push_neg at hc
      have h1 : escapeChars (c :: t) ++ '"' :: rest =
          c :: (escapeChars t ++ '"' :: rest) := by
        show (escChar c ++ escapeChars t) ++ '"' :: rest = _
        rw [escChar, if_neg (by tauto)]
        simp
      rw [h1]
      have h2 : unescape false (c :: (escapeChars t ++ '"' :: rest)) =
          (unescape false (escapeChars t ++ '"' :: rest)).map
            (fun p => (c :: p.1, p.2)) := by
        show (if c = '\\' then unescape true (escapeChars t ++ '"' :: rest)
          else if c = '"' then some ([], escapeChars t ++ '"' :: rest)
          else (unescape false (escapeChars t ++ '"' :: rest)).map
            (fun p => (c :: p.1, p.2))) = _
        rw [if_neg hc.2, if_neg hc.1]
      rw [h2, ih]
      rfl

/-- Every character of a printed number is a decimal digit. -/
theorem natReprChars_digits (n : Nat) :
    ∀ c ∈ natReprChars n, c.isDigit = true := by
  intro c hc
  unfold natReprChars at hc
  by_cases hn : n = 0
  · rw [if_pos hn] at hc
    simp at hc
    rw [hc]
    decide
  · rw [if_neg hn] at hc
    simp only [List.mem_map, List.mem_reverse] at hc
    obtain ⟨d, hd, rfl⟩ := hc
    have hlt : d < 10 := Nat.digits_lt_base (by norm_num) hd
    interval_cases d <;> decide

/-- A printed number is never empty. -/
theorem natReprChars_ne_nil (n : Nat) : natReprChars n ≠ [] := by
  unfold natReprChars
  by_cases hn : n = 0
  · simp [hn]
  · rw [if_neg hn]
    simp [Nat.digits_ne_nil_iff_ne_zero, hn]

/-- Decimal valuation of the reverse-mapped digit list. -/
theorem decVal_reverse_map (ds : List Nat) (h : ∀ d ∈ ds, d < 10) :
    ((ds.map (fun d => Char.ofNat (48 + d))).reverse).foldl
      (fun a c => 10 * a + (c.toNat - 48)) 0 = Nat.ofDigits 10 ds := by
  induction ds with
  | nil => rfl
  | cons d t ih =>
    have hrev : ((d :: t).map (fun d => Char.ofNat (48 + d))).reverse =
        (t.map (fun d => Char.ofNat (48 + d))).reverse ++
          [Char.ofNat (48 + d)] := by
      simp
    rw [hrev, List.foldl_append,
      ih (fun x hx => h x (List.mem_cons_of_mem d hx)), Nat.ofDigits_cons]
    have hd : d < 10 := h d (List.mem_cons_self d t)
    have hchar : (Char.ofNat (48 + d)).toNat - 48 = d := by
      interval_cases d <;> decide
    simp [hchar]
    ring

/-- Folding the digits of a printed number recovers it. -/
theorem foldDigits_natReprChars (n : Nat) :
    (natReprChars n).foldl (fun a c => 10 * a + (c.toNat - 48)) 0 = n := by
  unfold natReprChars
  by_cases hn : n = 0
  · rw [if_pos hn, hn]
    rfl
  · rw [if_neg hn]
    have hmr : (Nat.digits 10 n).reverse.map (fun d => Char.ofNat (48 + d)) =
        ((Nat.digits 10 n).map (fun d => Char.ofNat (48 + d))).reverse := by
      simp
    rw [hmr, decVal_reverse_map _ (fun d hd =>
      Nat.digits_lt_base (by norm_num) hd), Nat.ofDigits_digits]

/-- A digit-run split: `takeWhile isDigit` keeps exactly the printed
number when the suffix opens with a non-digit. -/
theorem takeWhile_digit_split (l r : List Char)
    (hl : ∀ c ∈ l, c.isDigit = true) (hr : (r.headD ',').isDigit = false) :
    (l ++ r).takeWhile Char.isDigit = l ∧
    (l ++ r).dropWhile Char.isDigit = r := by
  induction l with
  | nil =>
    cases r with
    | nil => exact ⟨rfl, rfl⟩
    | cons c t =>
      simp only [List.headD_cons] at hr
      simp [List.takeWhile_cons, List.dropWhile_cons, hr]
  | cons c t ih =>
    have hc : c.isDigit = true := hl c (List.mem_cons_self c t)
    have iht := ih (fun x hx => hl x (List.mem_cons_of_mem c hx))
    simp [List.takeWhile_cons, List.dropWhile_cons, hc, iht.1, iht.2]

/-- Number parsing inverts number printing. -/
theorem parseNatPart_append (n : Nat) (rest : List Char)
    (hrest : (rest.headD ',').isDigit = false) :
    parseNatPart (natReprChars n ++ rest) = some (n, rest) := by
  obtain ⟨htake, hdrop⟩ :=
    takeWhile_digit_split (natReprChars n) rest (natReprChars_digits n) hrest
  unfold parseNatPart
  rw [htake, hdrop]
  rw [if_neg (by simpa [List.isEmpty_iff] using natReprChars_ne_nil n)]
  rw [foldDigits_natReprChars n]

/-- Segment round trip: literal then escaped string. -/
theorem expectStr_append (lit s rest : List Char) :
    expectStr lit (lit ++ (escapeChars s ++ '"' :: rest)) = some (s, rest) := by
  unfold expectStr
  rw [expectChars_append]
  show unescape false (escapeChars s ++ '"' :: rest) = some (s, rest)
  exact unescape_escape s rest

/-- Segment round trip: literal then decimal number. -/
theorem expectNat_append (lit : List Char) (n : Nat) (rest : List Char)
    (hrest : (rest.headD ',').isDigit = false) :
    expectNat lit (lit ++ (natReprChars n ++ rest)) = some (n, rest) := by
  unfold expectNat
  rw [expectChars_append]
  show parseNatPart (natReprChars n ++ rest) = some (n, rest)
  exact parseNatPart_append n rest hrest

/-- The decoder recovers the `type` tag from its printed form. -/
theorem parsePermitType_mk_str (ty : PermitType) :
    parsePermitType (String.mk ty.str.data) = some ty := by
  cases ty <;> rfl

/-- The decoder inverts the canonical JSON encoding of the hash tuple. -/
theorem decodeTuple_tupleJsonChars (t : HashTuple) :
    decodeTuple (tupleJsonChars t) = some t := by
  obtain ⟨ty, iss, e, rcp, vid, vc⟩ := t
  simp only [tupleJsonChars, List.append_assoc]
  unfold decodeTuple
  rw [expectStr_append]
  simp only [Option.some_bind]
  rw [parsePermitType_mk_str]
  simp only [Option.some_bind]
  rw [expectStr_append]
  simp only [Option.some_bind]
  rw [expectNat_append _ _ _ (by rfl)]
  simp only [Option.some_bind]
  rw [expectStr_append]
  simp only [Option.some_bind]
  rw [expectNat_append _ _ _ (by rfl)]
  simp only [Option.some_bind]
  rw [expectStr_append]
  simp only [Option.some_bind]
  rfl

/-- The canonical JSON encoding of the hash tuple is injective. -/
theorem tupleJsonChars_inj : Function.Injective tupleJsonChars := by
  intro t1 t2 h
  have h1 := decodeTuple_tupleJsonChars t1
  have h2 := decodeTuple_tupleJsonChars t2
  rw [h, h2] at h1
  exact ((Option.some.injEq _ _).mp h1).symm

/-- C3: under an injective digest, two permits have the same hash exactly
when they agree on the tuple (kind, issuer, expiration, recipient,
validatorId, validatorContract).  In particular the hash is unchanged by
any change to `name`, the signatures, `_signedChainId` or the sealing
keypair, and changes under any change to the tuple. -/
theorem getHash_eq_iff (digest : String → String)
    (hinj : Function.Injective digest) (p q : Permit) :
    p.getHash digest = q.getHash digest ↔ permitTuple p = permitTuple q := by
  constructor
  · intro h
    have hs := hinj h
    have hl : tupleJsonChars (permitTuple p) = tupleJsonChars (permitTuple q) :=
      congrArg String.data hs
    exact tupleJsonChars_inj hl
  · intro h
    unfold Permit.getHash
    rw [h]

/-- A permit agreeing with `permitAtBoundary` on the hash tuple but
differing in name, signature and sealing key. -/
def permitRenamed : Permit :=
  { permitAtBoundary with
    name := "renamed",
    issuerSignature := "0x",
    sealingPair := { privateKey := "zz", publicKey := "ww" } }

/-- C3 witness: via the theorem with the identity digest (injective), the
renamed, re-signed, re-keyed permit keeps the hash of the original, and a
permit with a different expiration does not. -/
theorem getHash_eq_iff_witness :
    permitAtBoundary.getHash (fun s => s) =
      permitRenamed.getHash (fun s => s) ∧
    ¬ permitAtBoundary.getHash (fun s => s) =
      ({ permitAtBoundary with expiration := 101 } : Permit).getHash
        (fun s => s) :=
  ⟨(getHash_eq_iff (fun s => s) (fun _ _ h => h) permitAtBoundary
      permitRenamed).mpr rfl,
   fun h => by
    have := (getHash_eq_iff (fun s => s) (fun _ _ h => h) permitAtBoundary
      ({ permitAtBoundary with expiration := 101 } : Permit)).mp h
    simp [permitTuple, permitAtBoundary] at this⟩
